import Mathlib

/-!
Shallow embedding of the CodeDD consistency-test core
(`src/run_test/score_mappings.py`, `src/run_test/ai_auditor.py`,
`src/run_test/ai_auditor_num.py`, `src/run_test/audit_scoring.py`),
together with theorems settling the specification claims about the
response parsers and the deviation analyzer.

Python strings are modelled by `String`, Python ints by `ℤ`/`ℕ`, and
Python floats by `ℚ` (exact arithmetic; `round(x, 2)` is modelled by
`round2`).  The Python string primitives used by the code (`split`,
`strip`, `lower`, `startswith`, membership) are modelled by structural
functions over `String.data` so that every definition evaluates on
concrete inputs.  Dictionaries are modelled by association lists that
record insertion order, matching Python 3.7+ dict semantics.
-/

namespace CodeDD

/-! ### Python string primitives -/

/-- Split a character list at the first occurrence of `c` (Python
`s.split(c, 1)` when it finds a separator); `none` when `c` does not
occur. -/
def splitFirstChar (c : Char) : List Char → Option (List Char × List Char)
  | [] => none
  | d :: rest =>
    if d == c then some ([], rest)
    else
      match splitFirstChar c rest with
      | none => none
      | some (a, b) => some (d :: a, b)

/-- Python `s.split(":", 1)`: split at the first colon only; the result is
`[s]` when `s` has no colon and `[before, after]` otherwise. -/
def splitColonOnce (s : String) : List String :=
  match splitFirstChar ':' s.data with
  | none => [s]
  | some (a, b) => [String.mk a, String.mk b]

/-- Split a character list at every character satisfying `p`, keeping
empty pieces (the behavior of Python `split` with an explicit
separator). -/
def splitPred (p : Char → Bool) : List Char → List (List Char)
  | [] => [[]]
  | d :: rest =>
    match splitPred p rest with
    | [] => [[]]
    | h :: t => if p d then [] :: h :: t else (d :: h) :: t

/-- Python `s.split("\n")`. -/
def splitLines (s : String) : List String :=
  (splitPred (fun c => c == '\n') s.data).map String.mk

/-- Python `s.lower()` (ASCII case folding, the only case the rubric
uses). -/
def toLowerStr (s : String) : String :=
  String.mk (s.data.map Char.toLower)

/-- Python `s.strip()`: drop leading and trailing whitespace. -/
def trimStr (s : String) : String :=
  String.mk (((s.data.dropWhile Char.isWhitespace).reverse.dropWhile Char.isWhitespace).reverse)

/-- Python `s.startswith(pre)`. -/
def startsWithStr (s pre : String) : Bool :=
  pre.data.isPrefixOf s.data

/-- Python `s.rstrip(".")`: drop every trailing dot. -/
def rstripDots (s : String) : String :=
  String.mk ((s.data.reverse.dropWhile fun c => c == '.').reverse)

/-- Python `s.split()` with no argument: split on whitespace runs,
dropping empty pieces. -/
def pyWords (s : String) : List String :=
  ((splitPred Char.isWhitespace s.data).filter fun w => !w.isEmpty).map String.mk

/-- Python `' '.join(ws)`. -/
def joinWithSpace : List String → String
  | [] => ""
  | [w] => w
  | w :: rest => w ++ " " ++ joinWithSpace rest

/-- Remove every occurrence of a character from a string (Python
`s.replace(c, "")`). -/
def removeChar (c : Char) (s : String) : String :=
  String.mk (s.data.filter fun d => d != c)

/-- The apostrophe character, used by the sanitizers below. -/
def apos : Char := Char.ofNat 39

/-- Occurrence test for a character pattern at any position of a list. -/
def hasSubstrAux (pat : List Char) : List Char → Bool
  | [] => pat.isEmpty
  | c :: rest => pat.isPrefixOf (c :: rest) || hasSubstrAux pat rest

/-- Substring test modelling Python `pat in s`. -/
def hasSubstr (s pat : String) : Bool :=
  hasSubstrAux pat.data s.data

/-! ### `score_mappings.py` -/

/-- `SCORE_MAPPINGS` from `score_mappings.py`: for each metric key, the
ordered mapping from a lowercase textual answer to its integer score. -/
def SCORE_MAPPINGS : List (String × List (String × ℕ)) := [
  ("readability", [("highly readable", 100), ("moderately readable", 50), ("low readability", 0)]),
  ("consistency", [("highly consistent", 100), ("somewhat inconsistent", 50), ("not consistent", 0)]),
  ("modularity", [("excellent", 100), ("average", 50), ("poor", 0)]),
  ("maintainability", [("high", 100), ("moderate", 50), ("low", 0)]),
  ("reusability", [("high", 100), ("moderate", 50), ("low", 0)]),
  ("redundancy", [("no redundancies", 100), ("some redundancies", 50), ("high redundancy", 0)]),
  ("technical_debt", [("none", 100), ("low", 66), ("moderate", 33), ("high", 0)]),
  ("code_smells", [("none", 100), ("low", 66), ("moderate", 33), ("high", 0)]),
  ("completeness", [("fully functional", 100), ("partially functional", 50), ("not functional", 0)]),
  ("edge_cases", [("excellently covered", 100), ("partially covered", 66), ("poorly covered", 33), ("none covered", 0)]),
  ("error_handling", [("robust", 100), ("adequate", 50), ("poor", 0)]),
  ("efficiency", [("high", 100), ("average", 50), ("poor", 0)]),
  ("scalability", [("high", 100), ("moderate", 50), ("not scalable", 0)]),
  ("resource_utilization", [("optimal", 100), ("acceptable", 50), ("excessive", 0)]),
  ("load_handling", [("excellent", 100), ("good", 66), ("average", 33), ("poor", 0)]),
  ("parallel_processing", [("fully supported", 100), ("partially supported", 50), ("not supported", 0), ("not required", 100)]),
  ("database_interaction_efficiency", [("optimized", 100), ("sufficient", 50), ("inefficient", 0), ("not required", 100)]),
  ("concurrency_management", [("robust", 100), ("adequate", 50), ("poor", 0), ("not required", 100)]),
  ("state_management_efficiency", [("optimal", 100), ("adequate", 50), ("problematic", 0), ("not required", 100)]),
  ("modularity_decoupling", [("highly modular", 100), ("somewhat modular", 50), ("monolithic", 0)]),
  ("configuration_customization_ease", [("flexible", 100), ("moderate", 50), ("rigid", 0)]),
  ("input_validation", [("strong", 100), ("adequate", 50), ("weak", 0), ("not required", 100)]),
  ("data_handling", [("secure", 100), ("moderately secure", 50), ("insecure", 0), ("not required", 100)]),
  ("authentication", [("robust", 100), ("adequate", 50), ("non-existent", 0), ("not required", 100)]),
  ("independence", [("multi-platform", 100), ("limited platforms", 50), ("single platform", 25)]),
  ("integration", [("seamless", 100), ("requires workarounds", 50), ("incompatible", 0)]),
  ("inline_comments", [("comprehensive", 100), ("adequate", 66), ("sparse", 33), ("none", 0)]),
  ("standards", [("fully compliant", 100), ("partially compliant", 50), ("non-compliant", 0)]),
  ("design_patterns", [("extensive", 100), ("moderate", 66), ("rare", 33), ("none", 0)]),
  ("code_complexity", [("low", 100), ("moderate", 50), ("high", 0)]),
  ("refactoring_opportunities", [("many", 100), ("some", 66), ("few", 33), ("none", 0)])
]

/-- The `for key, score in mapping.items(): if value.startswith(key):
return score` loop of `get_score` (`score_mappings.py` lines 66-70); the
argument `v` is the already-lowercased answer. -/
def scoreLoop (v : String) : List (String × ℕ) → ℕ
  | [] => 0
  | (phrase, score) :: rest => if startsWithStr v phrase then score else scoreLoop v rest

/-- `get_score` from `score_mappings.py`: return 0 for an unknown
attribute, otherwise run the prefix-match loop on the lowercased value. -/
def get_score (attr value : String) : ℕ :=
  match SCORE_MAPPINGS.find? fun p => p.1 == attr with
  | none => 0
  | some p => scoreLoop (toLowerStr value) p.2

/-! ### `_parse_numerical_value` (`ai_auditor_num.py` lines 290-301) -/

/-- The `re.sub` step of `_parse_numerical_value`: remove every character
that is not a digit and not a dot. -/
def stripNonNumeric (s : String) : String :=
  String.mk (s.data.filter fun c => c.isDigit || c == '.')

/-- Digits of a character list read as a natural number (value of `float`
on a pure digit string; the empty list contributes 0 as a missing
integer or fractional part). -/
def digitsToNat (cs : List Char) : ℕ :=
  cs.foldl (fun n c => n * 10 + (c.toNat - 48)) 0

/-- Model of the Python builtin `float` on strings made of digits and dots
(the only inputs it receives in `_parse_numerical_value`): it succeeds iff
the string is non-empty, contains at most one dot and at least one digit;
`none` models the `ValueError` caught by the caller. -/
def parseSimpleFloat (s : String) : Option ℚ :=
  if s.data.isEmpty || !(s.data.all fun c => c.isDigit || c == '.') then none
  else
    match splitPred (fun c => c == '.') s.data with
    | [ip] => if ip.isEmpty then none else some ((digitsToNat ip : ℚ))
    | [ip, fp] =>
        if ip.isEmpty && fp.isEmpty then none
        else some ((digitsToNat ip : ℚ) + (digitsToNat fp : ℚ) / (10 : ℚ) ^ fp.length)
    | _ => none

/-- `_parse_numerical_value` from `ai_auditor_num.py`: strip non-numeric
characters, return `none` on an empty remainder, parse as a float and
clamp to [0, 100]; a parse failure is caught and yields `none`. -/
def parse_numerical_value (value : String) : Option ℚ :=
  if stripNonNumeric value = "" then none
  else
    match parseSimpleFloat (stripNonNumeric value) with
    | none => none
    | some q => some (max 0 (min 100 q))

/-! ### `parse_audit_response` (both auditor variants)

The two files `ai_auditor.py` (textual scoring) and `ai_auditor_num.py`
(numerical scoring) declare character-for-character identical
`schema_mapping` dictionaries inside their `parse_audit_response`
methods, so the mapping is embedded once. -/

/-- `schema_mapping` from `ai_auditor.py` lines 340-376 and
`ai_auditor_num.py` lines 322-359: metric key paired with the section
label used to locate its line. -/
def schema_mapping : List (String × String) := [
  ("is_script", "0."),
  ("is_script_explanation", "0.1."),
  ("domain", "1.1."),
  ("readability", "2.1."),
  ("consistency", "2.2."),
  ("modularity", "2.3."),
  ("maintainability", "2.4."),
  ("reusability", "2.5."),
  ("redundancy", "2.6."),
  ("technical_debt", "2.7."),
  ("code_smells", "2.8."),
  ("completeness", "3.1."),
  ("edge_cases", "3.2."),
  ("error_handling", "3.3."),
  ("efficiency", "4.1."),
  ("scalability", "4.2."),
  ("resource_utilization", "4.3."),
  ("load_handling", "4.4."),
  ("parallel_processing", "4.5."),
  ("database_interaction_efficiency", "4.6."),
  ("concurrency_management", "4.7."),
  ("state_management_efficiency", "4.8."),
  ("modularity_decoupling", "4.9."),
  ("configuration_customization_ease", "4.10."),
  ("input_validation", "5.1."),
  ("data_handling", "5.2."),
  ("authentication", "5.3."),
  ("package_dependencies", "5.4."),
  ("independence", "6.1."),
  ("integration", "6.2."),
  ("inline_comments", "7.1."),
  ("standards", "8.1."),
  ("design_patterns", "8.2."),
  ("code_complexity", "8.3."),
  ("refactoring_opportunities", "8.4.")
]

/-- Values stored in a parsed field mapping: sanitized strings, parsed
numbers, or Python `None` (unset / failed numeric parse). -/
inductive FieldValue where
  | vstr (s : String)
  | vnum (q : ℚ)
  | vnone
  deriving DecidableEq, Repr

/-- `sanitize_text` (identical in both auditor variants): strip quote and
bracket characters, strip trailing dots, and normalize the spellings of
"not applicable" to the literal `"N/A"`. -/
def sanitize_text (text : String) : String :=
  let s := removeChar ']' (removeChar '[' (removeChar apos (removeChar '"' text)))
  let s := rstripDots s
  if [ "na", "n/a", "not applicable", "not available"].contains (toLowerStr (trimStr s))
  then "N/A" else s

/-- `sanitize_domain` (identical in both auditor variants): strip
parentheses, quotes and commas; when more than two whitespace-separated
words remain, keep only the first two rejoined by single spaces, otherwise
return the cleaned text unchanged. -/
def sanitize_domain (text : String) : String :=
  let cleaned := removeChar ',' (removeChar '"' (removeChar apos (removeChar ')' (removeChar '(' text))))
  let words := pyWords cleaned
  if words.length > 2 then joinWithSpace (words.take 2) else cleaned

/-- Explanation extracted by the `is_script = no` short-circuit branch
(identical in both variants): the trimmed text after the first colon of
the first line starting with `"0.1."`, or `"N/A"` when that line is
missing or has no colon. -/
def gateExplanation (response_lines : List String) : String :=
  match response_lines.find? fun l => startsWithStr l "0.1." with
  | none => "N/A"
  | some el =>
    match splitColonOnce el with
    | [_, e] => trimStr e
    | _ => "N/A"

/-- The leading is-this-analyzable gate (identical in both variants): when
the first line starting with `"0."` has a colon and the text after it
trims and lowercases to `"no"`, return the explanation for the
short-circuit result; otherwise `none` (continue parsing). -/
def gateCheck (response_lines : List String) : Option String :=
  match response_lines.find? fun l => startsWithStr l "0." with
  | none => none
  | some line =>
    match splitColonOnce line with
    | [_, v] =>
        if toLowerStr (trimStr v) = "no" then some (gateExplanation response_lines) else none
    | _ => none

/-- `parse_response_line` from `ai_auditor.py` lines 318-337, for the keys
of `schema_mapping` (for those keys the `is_time_to_fix` argument is
always `False`, since no schema key is `"time_to_fix_flag"`, so that
branch is dead and is not modelled): find the first line starting with the
label, take the trimmed text after the first colon, sanitize it (domain
sanitization for the `"domain"` key), and return it; when the line is
missing or has no colon the default `None` is returned.  The Python
`result != default` comparison of a string against `None` is always true,
so a sanitized result is always returned when present. -/
def parse_response_line (response_text : String) (point_key lbl : String) : FieldValue :=
  match (splitLines response_text).find? fun line => startsWithStr line lbl with
  | none => FieldValue.vnone
  | some line =>
    match splitColonOnce line with
    | [_, rest] =>
      let result := trimStr rest
      FieldValue.vstr (if point_key = "domain" then sanitize_domain result else sanitize_text result)
    | _ => FieldValue.vnone

/-- One iteration of the schema loop of the textual
`parse_audit_response` (`ai_auditor.py` lines 400-414): store the parsed
value and bump the count when the value is the string `"None"`. -/
def auditStep (response_text : String) (acc : List (String × FieldValue) × ℕ)
    (p : String × String) : List (String × FieldValue) × ℕ :=
  (acc.1 ++ [(p.1, parse_response_line response_text p.1 p.2)],
   if parse_response_line response_text p.1 p.2 = FieldValue.vstr "None" then acc.2 + 1
   else acc.2)

/-- `parse_audit_response` from `ai_auditor.py` lines 293-416 (the textual
variant): after the gate check, build the field mapping by running
`parse_response_line` for every schema entry in declaration order,
counting the fields whose value is the string `"None"`.  The Python guard
`if key == "is_script" and "is_script" in audit_data: continue` is dead
(`audit_data` is empty when the loop starts) and is not modelled. -/
def parse_audit_response (response_text : String) : List (String × FieldValue) × ℕ :=
  match gateCheck (splitLines response_text) with
  | some explanation =>
      ([("is_script", FieldValue.vstr "no"), ("is_script_explanation", FieldValue.vstr explanation)], 0)
  | none =>
      schema_mapping.foldl (auditStep response_text) ([], 0)

/-- Wrap an optional parsed number the way the num-variant row stores it
(`None` for a failed parse). -/
def numFV : Option ℚ → FieldValue
  | none => FieldValue.vnone
  | some q => FieldValue.vnum q

/-- The schema loop of `parse_audit_response` from `ai_auditor_num.py`
lines 383-400: for each schema entry whose label starts some line with a
colon, store the trimmed after-colon text — domain-sanitized for
`"domain"`, verbatim for the three non-numeric keys, numerically parsed
otherwise (a failed parse stores `None`).  Keys with no matching line or
no colon are omitted. -/
def numStep (response_lines : List String) (acc : List (String × FieldValue))
    (p : String × String) : List (String × FieldValue) :=
  match response_lines.find? fun line => startsWithStr line p.2 with
  | none => acc
  | some line =>
    match splitColonOnce line with
    | [_, rest] =>
      let v := trimStr rest
      let fv :=
        if p.1 = "domain" then FieldValue.vstr (sanitize_domain v)
        else if p.1 = "is_script" ∨ p.1 = "is_script_explanation" ∨ p.1 = "package_dependencies"
          then FieldValue.vstr v
        else numFV (parse_numerical_value v)
      acc ++ [(p.1, fv)]
    | _ => acc

/-- The schema loop, folded over the schema entries in declaration
order. -/
def numSchemaLoop (response_lines : List String) : List (String × FieldValue) :=
  schema_mapping.foldl (numStep response_lines) []

/-- The trailing line-count extraction of `ai_auditor_num.py` lines
402-419: when some line contains the given lowercase marker (after
lowercasing the line) and has a colon, append the numerically parsed
after-colon text under the given key. -/
def lineCountField (response_lines : List String) (marker key : String)
    (acc : List (String × FieldValue)) : List (String × FieldValue) :=
  match response_lines.find? fun l => hasSubstr (toLowerStr l) marker with
  | none => acc
  | some l =>
    match splitColonOnce l with
    | [_, rest] => acc ++ [(key, numFV (parse_numerical_value rest))]
    | _ => acc

/-- `parse_audit_response` from `ai_auditor_num.py` lines 308-421 (the
numerical variant): gate check, schema loop, then the `lines_of_code` and
`lines_of_doc` extraction.  The `none_response_count` variable is
initialized to 0 and never incremented, so the returned count is always
0. -/
def parse_audit_response_num (response_text : String) : List (String × FieldValue) × ℕ :=
  match gateCheck (splitLines response_text) with
  | some explanation =>
      ([("is_script", FieldValue.vstr "no"), ("is_script_explanation", FieldValue.vstr explanation)], 0)
  | none =>
      (lineCountField (splitLines response_text) "lines of documentation" "lines_of_doc"
        (lineCountField (splitLines response_text) "lines of code" "lines_of_code"
          (numSchemaLoop (splitLines response_text))), 0)

/-! ### `calculate_deviations` (`audit_scoring.py` lines 20-132) -/

/-- An audit row as consumed by `calculate_deviations`: a filename and an
integer score per field name (`int(result[field])`). -/
structure AuditRow where
  filename : String
  score : String → ℤ

/-- `numeric_fields` from `audit_scoring.py` lines 39-48. -/
def numeric_fields : List String := [
  "readability", "consistency", "modularity", "maintainability", "reusability",
  "redundancy", "technical_debt", "code_smells", "completeness", "edge_cases",
  "error_handling", "efficiency", "scalability", "resource_utilization",
  "load_handling", "parallel_processing", "database_interaction_efficiency",
  "concurrency_management", "state_management_efficiency", "modularity_decoupling",
  "configuration_customization_ease", "input_validation", "data_handling",
  "authentication", "independence", "integration", "inline_comments", "standards",
  "design_patterns", "code_complexity", "refactoring_opportunities"
]

/-- Filenames in order of first appearance: the key order of the
`files_data` dict built by the grouping loop (`audit_scoring.py` lines
23-28, Python 3.7+ dict insertion order). -/
def fileNames (results : List AuditRow) : List String :=
  results.foldl (fun acc r => if acc.contains r.filename then acc else acc ++ [r.filename]) []

/-- Rows grouped under one filename, in encounter order (the value lists
of `files_data`). -/
def rowsFor (results : List AuditRow) (fn : String) : List AuditRow :=
  results.filter fun r => r.filename = fn

/-- `values = [int(result[field]) for result in file_results]`. -/
def metricValues (rows : List AuditRow) (fld : String) : List ℤ :=
  rows.map fun r => r.score fld

/-- `mean_value = sum(values) / len(values)` over `ℚ` (0 on the empty
list, which the analyzer never reaches). -/
def meanOf (values : List ℤ) : ℚ :=
  ((values.map fun (v : ℤ) => (v : ℚ)).sum) / (values.length : ℚ)

/-- The per-metric average percent deviation (`audit_scoring.py` lines
79-83): mean of `|v - mean| / mean * 100` when the mean is positive, 0
otherwise. -/
def avg_deviation_of (values : List ℤ) : ℚ :=
  if meanOf values > 0 then
    ((values.map fun (v : ℤ) => |(v : ℚ) - meanOf values| / meanOf values * 100).sum) / (values.length : ℚ)
  else 0

/-- Per-metric statistics stored in the report (`metric_info`,
`audit_scoring.py` lines 85-92).  `values_per_cycle` keeps the raw value
list; `mean` and `avg_deviation_percent` are stored rounded to two
decimal places. -/
structure MetricInfo where
  mean : ℚ
  min : ℤ
  max : ℤ
  range : ℤ
  avg_deviation_percent : ℚ
  values_per_cycle : List ℤ
  deriving DecidableEq, Repr

/-- Python `round(x, 2)` modelled over `ℚ`: round `100 * x` to the nearest
integer and divide back. -/
def round2 (q : ℚ) : ℚ :=
  ((round (q * 100) : ℤ) : ℚ) / 100

/-- Build the `metric_info` dict for a non-empty value list `v :: vs`
(`audit_scoring.py` lines 74-92): Python `max`/`min` of a non-empty list
are left folds of the binary operations. -/
def mkMetricInfo (v : ℤ) (vs : List ℤ) : MetricInfo :=
  { mean := round2 (meanOf (v :: vs)),
    min := vs.foldl min v,
    max := vs.foldl max v,
    range := vs.foldl max v - vs.foldl min v,
    avg_deviation_percent := round2 (avg_deviation_of (v :: vs)),
    values_per_cycle := v :: vs }

/-- Per-file aggregate of the report (`deviations['per_file'][filename]`,
initialized at `audit_scoring.py` lines 60-66). -/
structure FileStats where
  metrics : List (String × MetricInfo)
  total_deviation : ℚ
  max_deviation : ℚ
  most_inconsistent_metric : Option String
  avg_total_deviation : ℚ
  deriving DecidableEq, Repr

/-- The zero-initialized per-file aggregate. -/
def initFileStats : FileStats :=
  { metrics := [], total_deviation := 0, max_deviation := 0,
    most_inconsistent_metric := none, avg_total_deviation := 0 }

/-- One iteration of the per-metric loop (`audit_scoring.py` lines 69-102,
without the `overall` updates, which are accumulated separately below):
skip when the value list is empty, otherwise store the metric info, update
the running maximum deviation and most inconsistent metric on a strict
improvement, and add the deviation to the file total. -/
def processField (rows : List AuditRow) (fs : FileStats) (fld : String) : FileStats :=
  match metricValues rows fld with
  | [] => fs
  | v :: vs =>
    let d := avg_deviation_of (v :: vs)
    let fs1 := { fs with metrics := fs.metrics ++ [(fld, mkMetricInfo v vs)] }
    let fs2 :=
      if d > fs1.max_deviation then
        { fs1 with max_deviation := d, most_inconsistent_metric := some fld }
      else fs1
    { fs2 with total_deviation := fs2.total_deviation + d }

/-- The completed per-file aggregate: run the metric loop over all
declared fields, then set `avg_total_deviation = round(total /
len(numeric_fields), 2)` (`audit_scoring.py` lines 108-112). -/
def fileStats (rows : List AuditRow) : FileStats :=
  let fs := numeric_fields.foldl (processField rows) initFileStats
  { fs with avg_total_deviation := round2 (fs.total_deviation / (numeric_fields.length : ℚ)) }

/-- Global per-metric rollup (`deviations['overall']['metrics'][field]`). -/
structure OverallMetric where
  total_deviation : ℚ
  count : ℕ
  avg_deviation : ℚ
  deriving DecidableEq, Repr

/-- The per-metric `overall` accumulation (`audit_scoring.py` lines
104-106): one `(total += avg_deviation, count += 1)` update per file whose
value list for the metric is non-empty, in file order. -/
def overallAccum (results : List AuditRow) (fld : String) : ℚ × ℕ :=
  (fileNames results).foldl
    (fun acc fn =>
      match metricValues (rowsFor results fn) fld with
      | [] => acc
      | v :: vs => (acc.1 + avg_deviation_of (v :: vs), acc.2 + 1))
    (0, 0)

/-- The full deviation report. -/
structure Deviations where
  per_file : List (String × FileStats)
  overall_metrics : List (String × OverallMetric)
  overall_total_deviation : ℚ
  overall_avg_total_deviation : ℚ

/-- `calculate_deviations` from `audit_scoring.py` lines 20-132, rendered
as a pure function: group rows by filename, build each per-file aggregate,
accumulate the `overall` per-metric totals and counts over files in the
same order as the interleaved Python loop, sum the rounded per-file
`avg_total_deviation` values into `overall['total_deviation']`, and set
the overall averages only when at least one file exists
(`if num_files > 0`, lines 118-130; otherwise they keep their
zero-initialized defaults). -/
def calculate_deviations (results : List AuditRow) : Deviations :=
  let fns := fileNames results
  let per_file := fns.map fun fn => (fn, fileStats (rowsFor results fn))
  let num_files := fns.length
  let overall_metrics := numeric_fields.map fun fld =>
    let tc := overallAccum results fld
    let avg := if num_files > 0 ∧ tc.2 > 0 then round2 (tc.1 / (tc.2 : ℚ)) else 0
    (fld, { total_deviation := tc.1, count := tc.2, avg_deviation := avg : OverallMetric })
  let total := per_file.foldl (fun t p => t + p.2.avg_total_deviation) 0
  let avg_total := if num_files > 0 then round2 (total / (num_files : ℚ)) else 0
  { per_file := per_file,
    overall_metrics := overall_metrics,
    overall_total_deviation := total,
    overall_avg_total_deviation := avg_total }

/-! ### Specification-side definitions

These definitions formalize the language the claims are stated in; the
theorems below compare them with the embedded code. -/

/-- Value list of one metric across the rows grouped under one file. -/
def fileMetricValues (results : List AuditRow) (fn fld : String) : List ℤ :=
  metricValues (rowsFor results fn) fld

/-- Per-metric average deviations of one file, one pair per declared
metric, in declaration order. -/
def devList (results : List AuditRow) (fn : String) : List (String × ℚ) :=
  numeric_fields.map fun fld => (fld, avg_deviation_of (fileMetricValues results fn fld))

/-- Largest deviation in a deviation list, floored at the 0 the running
maximum starts from. -/
def devListMax (l : List (String × ℚ)) : ℚ :=
  l.foldl (fun m p => max m p.2) 0

/-- The metric the spec describes for `most_inconsistent_metric`: the
first metric attaining the single largest deviation, or `none` when no
deviation exceeds 0. -/
def firstAtMax (l : List (String × ℚ)) : Option String :=
  if devListMax l ≤ 0 then none
  else (l.find? fun p => decide (devListMax l ≤ p.2)).map Prod.fst

/-- One step of the running-maximum update of `calculate_deviations`
(`audit_scoring.py` lines 97-99), on the `(max_deviation,
most_inconsistent_metric)` pair. -/
def maxStep (acc : ℚ × Option String) (p : String × ℚ) : ℚ × Option String :=
  if p.2 > acc.1 then (p.2, some p.1) else acc

/-- `avg_deviation_percent` as the spec words it: mean of
`|v - mean| / mean * 100`, defined as 0 when the mean is 0. -/
def specAvgDev (values : List ℤ) : ℚ :=
  if meanOf values = 0 then 0
  else ((values.map fun (v : ℤ) => |(v : ℚ) - meanOf values| / meanOf values * 100).sum) / (values.length : ℚ)

/-- Fill every schema key missing from a parsed mapping with the default
unset value, as the row-building caller does. -/
def applyDefaults (m : List (String × FieldValue)) : List (String × FieldValue) :=
  m ++ schema_mapping.filterMap fun p =>
    if m.any fun e => e.1 = p.1 then none else some (p.1, FieldValue.vnone)

/-! ### Helper lemmas on `get_score` -/

theorem scoreLoop_eq_find (v : String) (m : List (String × ℕ)) :
    scoreLoop v m = ((m.find? fun e => startsWithStr v e.1).map Prod.snd).getD 0 := by
  induction m with
  | nil => rfl
  | cons e rest ih =>
    obtain ⟨phrase, score⟩ := e
    by_cases h : startsWithStr v phrase
    · simp [scoreLoop, List.find?_cons, h]
    · simp only [Bool.not_eq_true] at h
      simp [scoreLoop, List.find?_cons, h, ih]

theorem scoreLoop_le (v : String) (m : List (String × ℕ)) (h : ∀ e ∈ m, e.2 ≤ 100) :
    scoreLoop v m ≤ 100 := by
  induction m with
  | nil => simp [scoreLoop]
  | cons e rest ih =>
    obtain ⟨phrase, score⟩ := e
    simp only [scoreLoop]
    split
    · exact h (phrase, score) (List.mem_cons_self _ _)
    · exact ih fun x hx => h x (List.mem_cons_of_mem _ hx)

theorem score_mappings_bounded :
    ∀ p ∈ SCORE_MAPPINGS, ∀ e ∈ p.2, e.2 ≤ 100 := by decide

/-! ### Claim C4: `_parse_numerical_value` in numerical mode -/

/-- Claim C4, counterexample: the input `"1.2.3"` keeps a non-empty
remainder after stripping, yet `_parse_numerical_value` returns `None`
(Python `float` rejects a two-dot string and the `ValueError` handler
returns `None`), contradicting the claim that any non-empty remainder is
returned as a parsed, clamped decimal number. -/
theorem C4_multidot_counterexample :
    stripNonNumeric "1.2.3" = "1.2.3" ∧ stripNonNumeric "1.2.3" ≠ "" ∧
    parse_numerical_value "1.2.3" = none :=
  ⟨rfl, by decide, rfl⟩

/-- Claim C4 (amended): `_parse_numerical_value` strips all characters
except digits and dots; it returns `None` when nothing remains or when
the remainder is not a valid decimal literal (more than one dot, or no
digit, so that Python `float` raises), and otherwise returns the parsed
decimal clamped to [0, 100]; `"47"` parses to 47 and `"abc"` yields
`None` without an exception escaping. -/
theorem C4_parse_numerical_value (v : String) :
    (stripNonNumeric v = "" → parse_numerical_value v = none) ∧
    (parseSimpleFloat (stripNonNumeric v) = none → parse_numerical_value v = none) ∧
    (∀ q, parseSimpleFloat (stripNonNumeric v) = some q →
      parse_numerical_value v = some (max 0 (min 100 q))) ∧
    parse_numerical_value "47" = some 47 ∧
    parse_numerical_value "abc" = none := by
  refine ⟨?_, ?_, ?_, ?_, rfl⟩
  · intro h
    simp [parse_numerical_value, h]
  · intro h
    by_cases he : stripNonNumeric v = ""
    · simp [parse_numerical_value, he]
    · simp [parse_numerical_value, he, h]
  · intro q h
    by_cases he : stripNonNumeric v = ""
    · rw [he] at h
      simp [parseSimpleFloat] at h
    · simp [parse_numerical_value, he, h]
  · have h : parse_numerical_value "47" = some (max 0 (min 100 ((47 : ℕ) : ℚ))) := rfl
    rw [h]
    norm_num

/-- Claim C4, witness: the amended theorem applied at `"47"` and
`"abc"`. -/
theorem C4_parse_numerical_value_witness :
    parse_numerical_value "47" = some (max 0 (min 100 ((47 : ℕ) : ℚ))) ∧
    parse_numerical_value "abc" = none :=
  ⟨(C4_parse_numerical_value "47").2.2.1 ((47 : ℕ) : ℚ) rfl,
   (C4_parse_numerical_value "abc").2.1 rfl⟩

/-! ### Claim C10: `_parse_numerical_value` never returns a negative -/

/-- Claim C10: `_parse_numerical_value` never returns a negative number;
the value parsed from the stripped digits-and-dots remainder is itself
non-negative (sign characters are stripped before parsing), so the lower
bound of the [0, 100] clamp is never reached via a negative parsed value;
in particular `"-20"` yields 20, not 0. -/
theorem C10_nonneg (v : String) :
    (∀ q, parse_numerical_value v = some q → 0 ≤ q) ∧
    (∀ q, parseSimpleFloat (stripNonNumeric v) = some q → 0 ≤ q) ∧
    parse_numerical_value "-20" = some 20 := by
  refine ⟨?_, ?_, ?_⟩
  · intro q h
    unfold parse_numerical_value at h
    split at h
    · exact absurd h (by simp)
    · split at h
      · exact absurd h (by simp)
      · rw [Option.some_inj] at h
        rw [← h]
        exact le_max_left 0 _
  · intro q h
    unfold parseSimpleFloat at h
    split at h
    · exact absurd h (by simp)
    · split at h
      · split at h
        · exact absurd h (by simp)
        · rw [Option.some_inj] at h
          rw [← h]
          positivity
      · split at h
        · exact absurd h (by simp)
        · rw [Option.some_inj] at h
          rw [← h]
          positivity
      · exact absurd h (by simp)
  · have h : parse_numerical_value "-20" = some (max 0 (min 100 ((20 : ℕ) : ℚ))) := rfl
    rw [h]
    norm_num

/-- Claim C10, witness: the theorem applied at `"-20"`. -/
theorem C10_nonneg_witness : (0 : ℚ) ≤ 20 ∧ parse_numerical_value "-20" = some 20 :=
  ⟨(C10_nonneg "-20").1 20 (C10_nonneg "-20").2.2, (C10_nonneg "-20").2.2⟩

/-! ### Claim C5: `get_score` textual prefix lookup -/

/-- Claim C5: for a metric key present in `SCORE_MAPPINGS`, `get_score`
returns the score of the first mapping entry (declaration order) whose
phrase is a prefix of the lowercased answer, 0 when no entry matches, the
result is always at most 100 (and is a natural number, hence at least 0),
and `get_score "readability" "Highly Readable" = 100`. -/
theorem C5_get_score (attr value : String) (m : List (String × ℕ))
    (hm : SCORE_MAPPINGS.find? (fun p => p.1 == attr) = some (attr, m)) :
    get_score attr value
      = ((m.find? fun e => startsWithStr (toLowerStr value) e.1).map Prod.snd).getD 0 ∧
    get_score attr value ≤ 100 ∧
    get_score "readability" "Highly Readable" = 100 := by
  have hg : get_score attr value = scoreLoop (toLowerStr value) m := by
    unfold get_score
    rw [hm]
  refine ⟨?_, ?_, rfl⟩
  · rw [hg, scoreLoop_eq_find]
  · rw [hg]
    exact scoreLoop_le _ _
      (score_mappings_bounded (attr, m) (List.mem_of_find?_eq_some hm))

/-- Claim C5, witness: the theorem applied to the `readability` mapping
and the answer `"Highly Readable"`. -/
theorem C5_get_score_witness :
    get_score "readability" "Highly Readable"
      = ((([("highly readable", 100), ("moderately readable", 50), ("low readability", 0)]).find?
            fun e => startsWithStr (toLowerStr "Highly Readable") e.1).map Prod.snd).getD 0 ∧
    get_score "readability" "Highly Readable" ≤ 100 ∧
    get_score "readability" "Highly Readable" = 100 :=
  C5_get_score "readability" "Highly Readable" _ (by decide)

/-! ### Claim C7: schema labels and prefix ambiguity -/

/-- Claim C7, counterexample: `"0."` (the label of `is_script`) is a
string prefix of `"0.1."` (the label of `is_script_explanation`), so the
labels are not mutually unambiguous prefixes; a line of the `0.1.`
section does start with the `0.` label, so locating a line by a
startswith check on the `is_script` label can match the line that belongs
to the `is_script_explanation` entry. -/
theorem C7_label_counterexample :
    ("is_script", "0.") ∈ schema_mapping ∧
    ("is_script_explanation", "0.1.") ∈ schema_mapping ∧
    "0." ≠ "0.1." ∧
    startsWithStr "0.1." "0." = true ∧
    startsWithStr "0.1. Explanation: not code" "0." = true := by decide

/-- Claim C7 (amended): in the shared `schema_mapping` every key appears
exactly once and every label appears exactly once, no label is a prefix
of a label declared earlier, and every pair of distinct labels is
mutually non-prefixing except the single pair `("0.", "0.1.")`: `"0."`
(declared first) is a prefix of the later `"0.1."`, so checking whether a
line starts with the `"0."` label can match a line that belongs to the
`is_script_explanation` entry. -/
theorem C7_schema_labels :
    (schema_mapping.map Prod.fst).Nodup ∧
    (schema_mapping.map Prod.snd).Nodup ∧
    List.Pairwise
      (fun la lb => lb.data.isPrefixOf la.data = false ∧
        (la.data.isPrefixOf lb.data = false ∨ (la = "0." ∧ lb = "0.1.")))
      (schema_mapping.map Prod.snd) ∧
    startsWithStr "0.1." "0." = true := by decide

/-! ### Helper lemmas on the parsers -/

theorem auditStep_foldl_keys (t : String) (flds : List (String × String))
    (acc : List (String × FieldValue) × ℕ) :
    (flds.foldl (auditStep t) acc).1.map Prod.fst
      = acc.1.map Prod.fst ++ flds.map Prod.fst := by
  induction flds generalizing acc with
  | nil => simp
  | cons p rest ih =>
    rw [List.foldl_cons, ih]
    simp [auditStep]

theorem auditStep_foldl_count (t : String) (flds : List (String × String))
    (acc : List (String × FieldValue) × ℕ) :
    (flds.foldl (auditStep t) acc).2
      = acc.2 + flds.countP fun p =>
          decide (parse_response_line t p.1 p.2 = FieldValue.vstr "None") := by
  induction flds generalizing acc with
  | nil => simp
  | cons p rest ih =>
    rw [List.foldl_cons, ih, List.countP_cons]
    unfold auditStep
    by_cases h : parse_response_line t p.1 p.2 = FieldValue.vstr "None"
    · simp only [h, if_pos rfl]
      simp
      omega
    · simp [h]

theorem numStep_keys (lines : List String) (acc : List (String × FieldValue))
    (p : String × String) :
    (numStep lines acc p).map Prod.fst = acc.map Prod.fst ∨
    (numStep lines acc p).map Prod.fst = acc.map Prod.fst ++ [p.1] := by
  unfold numStep
  split
  · exact Or.inl rfl
  · split
    · right
      simp
    · exact Or.inl rfl

theorem numSchemaLoop_foldl_keys (lines : List String) (flds : List (String × String))
    (acc : List (String × FieldValue)) :
    ∀ k ∈ (flds.foldl (numStep lines) acc).map Prod.fst,
      k ∈ acc.map Prod.fst ∨ k ∈ flds.map Prod.fst := by
  induction flds generalizing acc with
  | nil => simp
  | cons p rest ih =>
    intro k hk
    rw [List.foldl_cons] at hk
    rcases ih (numStep lines acc p) k hk with h | h
    · rcases numStep_keys lines acc p with he | he
      · rw [he] at h
        exact Or.inl h
      · rw [he] at h
        rcases List.mem_append.mp h with h | h
        · exact Or.inl h
        · right
          rw [List.mem_singleton.mp h]
          simp
    · right
      simp [h]

theorem lineCountField_keys (lines : List String) (marker key : String)
    (acc : List (String × FieldValue)) :
    ∀ k ∈ (lineCountField lines marker key acc).map Prod.fst,
      k ∈ acc.map Prod.fst ∨ k = key := by
  intro k hk
  unfold lineCountField at hk
  split at hk
  · exact Or.inl hk
  · split at hk
    · rw [List.map_append, List.mem_append] at hk
      rcases hk with h | h
      · exact Or.inl h
      · right
        simpa using h
    · exact Or.inl hk

theorem applyDefaults_complete (m : List (String × FieldValue)) (k : String)
    (hk : k ∈ schema_mapping.map Prod.fst) :
    k ∈ (applyDefaults m).map Prod.fst := by
  rw [List.mem_map] at hk
  obtain ⟨p, hp, rfl⟩ := hk
  by_cases h : (m.any fun e => e.1 = p.1) = true
  · rw [List.any_eq_true] at h
    obtain ⟨e, he, hek⟩ := h
    rw [decide_eq_true_eq] at hek
    exact List.mem_map.mpr ⟨e, List.mem_append_left _ he, hek⟩
  · refine List.mem_map.mpr ⟨(p.1, FieldValue.vnone), List.mem_append_right _ ?_, rfl⟩
    exact List.mem_filterMap.mpr ⟨p, hp, by simp_all⟩

/-! ### Claim C6: schema completeness of the parsed field mapping -/

/-- Claim C6, counterexample: on a response containing a `lines of code`
line, the numerical variant emits the key `lines_of_code`, which is not a
key of `schema_mapping`, so its output can contain a key absent from its
schema mapping. -/
theorem C6_extra_key_counterexample :
    "lines_of_code" ∈ (parse_audit_response_num "lines of code: 50").1.map Prod.fst ∧
    "lines_of_code" ∉ schema_mapping.map Prod.fst := by decide

/-- Claim C6 (amended): the textual variant's output never contains a key
absent from the schema mapping; the numerical variant's output never
contains a key outside the schema mapping except the two line-count keys
`lines_of_code` and `lines_of_doc`; and, once defaults are applied, the
output of either variant contains every schema key. -/
theorem C6_schema_completeness (t : String) :
    (∀ k ∈ (parse_audit_response t).1.map Prod.fst, k ∈ schema_mapping.map Prod.fst) ∧
    (∀ k ∈ schema_mapping.map Prod.fst,
      k ∈ (applyDefaults (parse_audit_response t).1).map Prod.fst) ∧
    (∀ k ∈ (parse_audit_response_num t).1.map Prod.fst,
      k ∈ schema_mapping.map Prod.fst ∨ k = "lines_of_code" ∨ k = "lines_of_doc") ∧
    (∀ k ∈ schema_mapping.map Prod.fst,
      k ∈ (applyDefaults (parse_audit_response_num t).1).map Prod.fst) := by
  refine ⟨?_, fun k hk => applyDefaults_complete _ k hk, ?_,
    fun k hk => applyDefaults_complete _ k hk⟩
  · intro k hk
    unfold parse_audit_response at hk
    split at hk
    · simp only [List.map_cons, List.map_nil, List.mem_cons, List.not_mem_nil, or_false] at hk
      rcases hk with rfl | rfl <;> decide
    · rw [auditStep_foldl_keys] at hk
      simpa using hk
  · intro k hk
    unfold parse_audit_response_num at hk
    split at hk
    · simp only [List.map_cons, List.map_nil, List.mem_cons, List.not_mem_nil, or_false] at hk
      rcases hk with rfl | rfl <;> exact Or.inl (by decide)
    · rcases lineCountField_keys _ _ _ _ k hk with h | h
      · rcases lineCountField_keys _ _ _ _ k h with h2 | h2
        · exact Or.inl ((numSchemaLoop_foldl_keys _ _ _ k h2).resolve_left (by simp))
        · exact Or.inr (Or.inl h2)
      · exact Or.inr (Or.inr h)

/-- Claim C6, witness: the amended theorem applied at a concrete response
text and the key `"domain"`. -/
theorem C6_schema_completeness_witness :
    "domain" ∈ schema_mapping.map Prod.fst ∧
    "domain" ∈ (applyDefaults (parse_audit_response "1.1. Domain: Backend").1).map Prod.fst ∧
    ("domain" ∈ schema_mapping.map Prod.fst ∨ "domain" = "lines_of_code" ∨
      "domain" = "lines_of_doc") ∧
    "domain" ∈ (applyDefaults (parse_audit_response_num "1.1. Domain: Backend").1).map Prod.fst := by
  have h := C6_schema_completeness "1.1. Domain: Backend"
  exact ⟨h.1 "domain" (by decide), h.2.1 "domain" (by decide),
    h.2.2.1 "domain" (by decide), h.2.2.2 "domain" (by decide)⟩

/-! ### Claim C8: count of literal "None" answers -/

/-- Claim C8, counterexample: in the numerical variant, a response whose
`5.4.` line has the raw answer `"None"` yields exactly one schema field
whose extracted raw answer is the literal string `"None"`, yet the
returned count is 0 (the counter is never incremented in
`ai_auditor_num.py`), not 1 as the claim requires. -/
theorem C8_count_counterexample :
    (parse_audit_response_num "5.4. Package Dependencies: None").1
      = [("package_dependencies", FieldValue.vstr "None")] ∧
    (parse_audit_response_num "5.4. Package Dependencies: None").2 = 0 :=
  ⟨rfl, rfl⟩

/-- Claim C8 (amended): when the gate does not short-circuit, the textual
variant returns the number of schema fields whose extracted and sanitized
answer equals the string `"None"`; the numerical variant's count is never
incremented and is always 0. -/
theorem C8_none_count (t : String) :
    (gateCheck (splitLines t) = none →
      (parse_audit_response t).2
        = schema_mapping.countP fun p =>
            decide (parse_response_line t p.1 p.2 = FieldValue.vstr "None")) ∧
    (parse_audit_response_num t).2 = 0 := by
  constructor
  · intro hg
    unfold parse_audit_response
    rw [hg, auditStep_foldl_count]
    simp
  · unfold parse_audit_response_num
    split <;> rfl

/-- Claim C8, witness: the amended theorem applied at a response whose
`2.1.` answer is `"None"` (count 1 in the textual variant) and at the
numerical variant (count 0). -/
theorem C8_none_count_witness :
    (parse_audit_response "2.1. Readability: None").2
      = schema_mapping.countP (fun p =>
          decide (parse_response_line "2.1. Readability: None" p.1 p.2
            = FieldValue.vstr "None")) ∧
    (parse_audit_response "2.1. Readability: None").2 = 1 ∧
    (parse_audit_response_num "5.4. Package Dependencies: None").2 = 0 := by
  have h1 := C8_none_count "2.1. Readability: None"
  have h2 := C8_none_count "5.4. Package Dependencies: None"
  exact ⟨h1.1 rfl, rfl, h2.2⟩

/-! ### Claim C9: the is-analyzable gate short-circuit -/

/-- Claim C9: when the first line starting with `"0."` has, after its
first colon, a value whose trimmed lowercase form is `"no"`, both parser
variants short-circuit and return exactly the two-key mapping
`is_script = "no"` and `is_script_explanation` (the text taken from the
first `"0.1."` line, `"N/A"` when that line is absent), with a None-count
of 0 and no metric fields populated. -/
theorem C9_gate_short_circuit (t line a rest : String)
    (hline : (splitLines t).find? (fun l => startsWithStr l "0.") = some line)
    (hcolon : splitColonOnce line = [a, rest])
    (hno : toLowerStr (trimStr rest) = "no") :
    parse_audit_response t =
      ([("is_script", FieldValue.vstr "no"),
        ("is_script_explanation", FieldValue.vstr (gateExplanation (splitLines t)))], 0) ∧
    parse_audit_response_num t =
      ([("is_script", FieldValue.vstr "no"),
        ("is_script_explanation", FieldValue.vstr (gateExplanation (splitLines t)))], 0) ∧
    ((splitLines t).find? (fun l => startsWithStr l "0.1.") = none →
      gateExplanation (splitLines t) = "N/A") := by
  have hgate : gateCheck (splitLines t) = some (gateExplanation (splitLines t)) := by
    unfold gateCheck
    rw [hline]
    dsimp only
    rw [hcolon]
    simp [hno]
  refine ⟨?_, ?_, ?_⟩
  · unfold parse_audit_response
    rw [hgate]
  · unfold parse_audit_response_num
    rw [hgate]
  · intro h
    unfold gateExplanation
    rw [h]

/-- Claim C9, witness: the theorem applied to the Scenario E response
text. -/
theorem C9_gate_short_circuit_witness :
    parse_audit_response "0. Is this analyzable code? (Yes / No): No\n0.1. Explanation: pure data file" =
      ([("is_script", FieldValue.vstr "no"),
        ("is_script_explanation", FieldValue.vstr "pure data file")], 0) ∧
    parse_audit_response_num "0. Is this analyzable code? (Yes / No): No\n0.1. Explanation: pure data file" =
      ([("is_script", FieldValue.vstr "no"),
        ("is_script_explanation", FieldValue.vstr "pure data file")], 0) := by
  have h := C9_gate_short_circuit
    "0. Is this analyzable code? (Yes / No): No\n0.1. Explanation: pure data file"
    "0. Is this analyzable code? (Yes / No): No"
    "0. Is this analyzable code? (Yes / No)" " No" (by decide) (by decide) (by decide)
  have he : gateExplanation (splitLines
      "0. Is this analyzable code? (Yes / No): No\n0.1. Explanation: pure data file")
      = "pure data file" := rfl
  rw [he] at h
  exact ⟨h.1, h.2.1⟩

/-! ### Helper lemmas on the deviation analyzer -/

theorem sum_map_cast_const (values : List ℤ) (c : ℤ) (h : ∀ x ∈ values, x = c) :
    (values.map fun (v : ℤ) => (v : ℚ)).sum = (values.length : ℚ) * (c : ℚ) := by
  induction values with
  | nil => simp
  | cons a l ih =>
    have ha := h a (List.mem_cons_self _ _)
    rw [List.map_cons, List.sum_cons, ih fun x hx => h x (List.mem_cons_of_mem _ hx), ha]
    simp only [List.length_cons]
    push_cast
    ring

theorem meanOf_const (values : List ℤ) (c : ℤ) (hne : values ≠ [])
    (h : ∀ x ∈ values, x = c) : meanOf values = (c : ℚ) := by
  unfold meanOf
  rw [sum_map_cast_const values c h]
  have hlen : ((values.length : ℚ)) ≠ 0 :=
    Nat.cast_ne_zero.mpr (Nat.pos_iff_ne_zero.mp (List.length_pos.mpr hne))
  rw [mul_div_cancel_left₀ _ hlen]

theorem avg_deviation_of_nonneg (values : List ℤ) : 0 ≤ avg_deviation_of values := by
  unfold avg_deviation_of
  split
  · rename_i h
    apply div_nonneg
    · apply List.sum_nonneg
      intro x hx
      rw [List.mem_map] at hx
      obtain ⟨v, _, rfl⟩ := hx
      exact mul_nonneg (div_nonneg (abs_nonneg _) h.le) (by norm_num)
    · exact Nat.cast_nonneg _
  · exact le_refl 0

theorem avg_deviation_of_const (values : List ℤ) (c : ℤ) (h : ∀ x ∈ values, x = c) :
    avg_deviation_of values = 0 := by
  unfold avg_deviation_of
  split
  · rename_i hm
    have hne : values ≠ [] := by
      intro hnil
      rw [hnil] at hm
      simp [meanOf] at hm
    have hmc := meanOf_const values c hne h
    have hz : ∀ y ∈ values.map fun (v : ℤ) => |(v : ℚ) - meanOf values| / meanOf values * 100, y = 0 := by
      intro y hy
      rw [List.mem_map] at hy
      obtain ⟨v, hv, rfl⟩ := hy
      rw [h v hv, hmc, sub_self, abs_zero, zero_div, zero_mul]
    rw [List.sum_eq_zero hz, zero_div]
  · rfl

theorem avg_deviation_of_eq_spec (values : List ℤ) (h : ∀ v ∈ values, 0 ≤ v) :
    avg_deviation_of values = specAvgDev values := by
  have hm : 0 ≤ meanOf values := by
    unfold meanOf
    apply div_nonneg
    · apply List.sum_nonneg
      intro x hx
      rw [List.mem_map] at hx
      obtain ⟨v, hv, rfl⟩ := hx
      exact_mod_cast h v hv
    · exact Nat.cast_nonneg _
  unfold avg_deviation_of specAvgDev
  rcases lt_or_eq_of_le hm with hlt | heq
  · rw [if_pos hlt, if_neg (ne_of_gt hlt)]
  · rw [if_neg (by rw [← heq]; exact lt_irrefl 0), if_pos heq.symm]

theorem foldl_max_init_le (l : List (String × ℚ)) (m : ℚ) :
    m ≤ l.foldl (fun m p => max m p.2) m := by
  induction l generalizing m with
  | nil => exact le_refl m
  | cons p rest ih => exact le_trans (le_max_left m p.2) (ih (max m p.2))

theorem le_foldl_max (l : List (String × ℚ)) (m : ℚ) (p : String × ℚ) (hp : p ∈ l) :
    p.2 ≤ l.foldl (fun m q => max m q.2) m := by
  induction l generalizing m with
  | nil => cases hp
  | cons q rest ih =>
    rcases List.mem_cons.mp hp with rfl | h
    · rw [List.foldl_cons]
      exact le_trans (le_max_right m p.2) (foldl_max_init_le rest _)
    · exact ih _ h

theorem foldl_max_attained (l : List (String × ℚ)) (m : ℚ) :
    l.foldl (fun m q => max m q.2) m = m ∨
    ∃ p ∈ l, l.foldl (fun m q => max m q.2) m = p.2 := by
  induction l generalizing m with
  | nil => exact Or.inl rfl
  | cons q rest ih =>
    rw [List.foldl_cons]
    rcases max_choice m q.2 with hm | hm <;> rw [hm]
    · rcases ih m with h | ⟨p, hp, h⟩
      · exact Or.inl h
      · exact Or.inr ⟨p, List.mem_cons_of_mem _ hp, h⟩
    · rcases ih q.2 with h | ⟨p, hp, h⟩
      · exact Or.inr ⟨q, List.mem_cons_self _ _, h⟩
      · exact Or.inr ⟨p, List.mem_cons_of_mem _ hp, h⟩

theorem devListMax_nonneg (l : List (String × ℚ)) : 0 ≤ devListMax l :=
  foldl_max_init_le l 0

theorem devListMax_append (l : List (String × ℚ)) (p : String × ℚ) :
    devListMax (l ++ [p]) = max (devListMax l) p.2 := by
  unfold devListMax
  rw [List.foldl_append, List.foldl_cons, List.foldl_nil]

theorem devListMax_le_iff (l : List (String × ℚ)) (p : String × ℚ) (hp : p ∈ l) :
    p.2 ≤ devListMax l :=
  le_foldl_max l 0 p hp

theorem firstAtMax_eq_none_of_all_zero (l : List (String × ℚ)) (hz : ∀ p ∈ l, p.2 = 0) :
    firstAtMax l = none := by
  have hmax : devListMax l = 0 := by
    rcases foldl_max_attained l 0 with h | ⟨p, hp, h⟩
    · exact h
    · rw [hz p hp] at h
      exact h
  unfold firstAtMax
  rw [hmax]
  simp

theorem maxStep_foldl_eq (l : List (String × ℚ)) (h : ∀ p ∈ l, 0 ≤ p.2) :
    l.foldl maxStep ((0 : ℚ), (none : Option String)) = (devListMax l, firstAtMax l) := by
  induction l using List.reverseRecOn with
  | nil => rfl
  | append_singleton l p ih =>
    have hl : ∀ q ∈ l, 0 ≤ q.2 := fun q hq => h q (List.mem_append_left _ hq)
    have hp : 0 ≤ p.2 := h p (List.mem_append_right _ (List.mem_singleton_self _))
    rw [List.foldl_append, ih hl, List.foldl_cons, List.foldl_nil]
    unfold maxStep
    by_cases hgt : p.2 > devListMax l
    · rw [if_pos hgt]
      have hmax : devListMax (l ++ [p]) = p.2 := by
        rw [devListMax_append]
        exact max_eq_right hgt.le
      have hppos : (0 : ℚ) < p.2 := lt_of_le_of_lt (devListMax_nonneg l) hgt
      refine Prod.ext hmax.symm ?_
      show some p.1 = firstAtMax (l ++ [p])
      unfold firstAtMax
      rw [if_neg (by rw [hmax]; exact not_le.mpr hppos), hmax]
      have hfl : l.find? (fun q => decide (p.2 ≤ q.2)) = none := by
        rw [List.find?_eq_none]
        intro q hq
        simp only [decide_eq_true_eq, not_le]
        exact lt_of_le_of_lt (devListMax_le_iff l q hq) hgt
      rw [List.find?_append, hfl, Option.none_or]
      simp [List.find?_cons]
    · rw [if_neg hgt]
      push_neg at hgt
      have hmax : devListMax (l ++ [p]) = devListMax l := by
        rw [devListMax_append]
        exact max_eq_left hgt
      refine Prod.ext hmax.symm ?_
      show firstAtMax l = firstAtMax (l ++ [p])
      unfold firstAtMax
      rw [hmax]
      by_cases hz : devListMax l ≤ 0
      · rw [if_pos hz, if_pos hz]
      · rw [if_neg hz, if_neg hz]
        have hex : ∃ q ∈ l, devListMax l = q.2 := by
          rcases foldl_max_attained l 0 with h0 | hq
          · exact absurd (le_of_eq h0) hz
          · exact hq
        obtain ⟨q, hq, hqe⟩ := hex
        have hfind : (l.find? fun r => decide (devListMax l ≤ r.2)).isSome := by
          rw [List.find?_isSome]
          exact ⟨q, hq, by simp [hqe.le]⟩
        rw [List.find?_append]
        cases hf : l.find? fun r => decide (devListMax l ≤ r.2) with
        | none => rw [hf] at hfind; simp at hfind
        | some r => simp

theorem processField_metrics_cons (rows : List AuditRow) (fs : FileStats) (fld : String)
    (v : ℤ) (vs : List ℤ) (hv : metricValues rows fld = v :: vs) :
    (processField rows fs fld).metrics = fs.metrics ++ [(fld, mkMetricInfo v vs)] := by
  unfold processField
  rw [hv]
  dsimp only
  split <;> rfl

theorem processField_pair (rows : List AuditRow) (hrows : rows ≠ []) (fs : FileStats)
    (fld : String) :
    ((processField rows fs fld).max_deviation, (processField rows fs fld).most_inconsistent_metric)
      = maxStep (fs.max_deviation, fs.most_inconsistent_metric)
          (fld, avg_deviation_of (metricValues rows fld)) ∧
    (processField rows fs fld).total_deviation
      = fs.total_deviation + avg_deviation_of (metricValues rows fld) ∧
    (processField rows fs fld).avg_total_deviation = fs.avg_total_deviation := by
  cases hv : metricValues rows fld with
  | nil =>
    exact absurd (List.map_eq_nil_iff.mp hv) hrows
  | cons v vs =>
    unfold processField
    rw [hv]
    dsimp only
    unfold maxStep
    by_cases hgt : avg_deviation_of (v :: vs) > fs.max_deviation
    · rw [if_pos hgt, if_pos hgt]
      exact ⟨rfl, rfl, rfl⟩
    · rw [if_neg hgt, if_neg hgt]
      exact ⟨rfl, rfl, rfl⟩

theorem foldl_processField (rows : List AuditRow) (hrows : rows ≠ [])
    (flds : List String) (fs : FileStats) :
    (((flds.foldl (processField rows) fs).max_deviation,
      (flds.foldl (processField rows) fs).most_inconsistent_metric)
      = (flds.map fun fld => (fld, avg_deviation_of (metricValues rows fld))).foldl maxStep
          (fs.max_deviation, fs.most_inconsistent_metric)) ∧
    ((flds.foldl (processField rows) fs).total_deviation
      = fs.total_deviation + (flds.map fun fld => avg_deviation_of (metricValues rows fld)).sum) ∧
    ((flds.foldl (processField rows) fs).avg_total_deviation = fs.avg_total_deviation) := by
  induction flds generalizing fs with
  | nil => exact ⟨rfl, by simp, rfl⟩
  | cons g rest ih =>
    obtain ⟨h1, h2, h3⟩ := processField_pair rows hrows fs g
    obtain ⟨i1, i2, i3⟩ := ih (processField rows fs g)
    refine ⟨?_, ?_, ?_⟩
    · rw [List.foldl_cons, i1, h1, List.map_cons, List.foldl_cons]
    · rw [List.foldl_cons, i2, h2, List.map_cons, List.sum_cons]
      ring
    · rw [List.foldl_cons, i3, h3]

theorem foldl_processField_metrics_mono (rows : List AuditRow) (flds : List String)
    (fs : FileStats) (x : String × MetricInfo) (hx : x ∈ fs.metrics) :
    x ∈ (flds.foldl (processField rows) fs).metrics := by
  induction flds generalizing fs with
  | nil => exact hx
  | cons g rest ih =>
    rw [List.foldl_cons]
    apply ih
    cases hv : metricValues rows g with
    | nil =>
      unfold processField
      rw [hv]
      exact hx
    | cons v vs =>
      rw [processField_metrics_cons rows fs g v vs hv]
      exact List.mem_append_left _ hx

theorem mem_foldl_metrics_of_mem (rows : List AuditRow) (flds : List String) (fs : FileStats)
    (fld : String) (hfld : fld ∈ flds) (v : ℤ) (vs : List ℤ)
    (hv : metricValues rows fld = v :: vs) :
    (fld, mkMetricInfo v vs) ∈ (flds.foldl (processField rows) fs).metrics := by
  induction flds generalizing fs with
  | nil => cases hfld
  | cons g rest ih =>
    rw [List.foldl_cons]
    rcases List.mem_cons.mp hfld with h | h
    · subst h
      apply foldl_processField_metrics_mono
      rw [processField_metrics_cons rows fs fld v vs hv]
      exact List.mem_append_right _ (List.mem_singleton_self _)
    · exact ih _ h

theorem mem_metrics_of_mem_foldl (rows : List AuditRow) (flds : List String) (fs : FileStats)
    (fld : String) (mi : MetricInfo)
    (h : (fld, mi) ∈ (flds.foldl (processField rows) fs).metrics) :
    (fld, mi) ∈ fs.metrics ∨
    ∃ v vs, metricValues rows fld = v :: vs ∧ mi = mkMetricInfo v vs := by
  induction flds generalizing fs with
  | nil => exact Or.inl h
  | cons g rest ih =>
    rw [List.foldl_cons] at h
    rcases ih _ h with h2 | h2
    · cases hv : metricValues rows g with
      | nil =>
        unfold processField at h2
        rw [hv] at h2
        exact Or.inl h2
      | cons v vs =>
        rw [processField_metrics_cons rows fs g v vs hv] at h2
        rcases List.mem_append.mp h2 with h3 | h3
        · exact Or.inl h3
        · have h4 := List.mem_singleton.mp h3
          have e1 : fld = g := congrArg Prod.fst h4
          have e2 : mi = mkMetricInfo v vs := congrArg Prod.snd h4
          subst e1
          exact Or.inr ⟨v, vs, hv, e2⟩
    · exact Or.inr h2

theorem mem_fileNames_exists (results : List AuditRow) (acc : List String) (fn : String)
    (h : fn ∈ results.foldl
        (fun acc r => if acc.contains r.filename then acc else acc ++ [r.filename]) acc) :
    fn ∈ acc ∨ ∃ r ∈ results, r.filename = fn := by
  induction results generalizing acc with
  | nil => exact Or.inl h
  | cons r rs ih =>
    rw [List.foldl_cons] at h
    rcases ih _ h with h2 | h2
    · by_cases hc : acc.contains r.filename
      · rw [if_pos hc] at h2
        exact Or.inl h2
      · rw [if_neg hc] at h2
        rcases List.mem_append.mp h2 with h3 | h3
        · exact Or.inl h3
        · exact Or.inr ⟨r, List.mem_cons_self _ _, (List.mem_singleton.mp h3).symm⟩
    · obtain ⟨q, hq, he⟩ := h2
      exact Or.inr ⟨q, List.mem_cons_of_mem _ hq, he⟩

theorem rowsFor_ne_nil (results : List AuditRow) (fn : String) (h : fn ∈ fileNames results) :
    rowsFor results fn ≠ [] := by
  rcases mem_fileNames_exists results [] fn h with h2 | ⟨r, hr, he⟩
  · cases h2
  · intro hnil
    have hmem : r ∈ rowsFor results fn := List.mem_filter.mpr ⟨hr, by simp [he]⟩
    rw [hnil] at hmem
    cases hmem

theorem fileNames_foldl_ne_nil (rs : List AuditRow) (acc : List String) (h : acc ≠ []) :
    rs.foldl (fun acc r => if acc.contains r.filename then acc else acc ++ [r.filename]) acc
      ≠ [] := by
  induction rs generalizing acc with
  | nil => exact h
  | cons r rest ih =>
    rw [List.foldl_cons]
    apply ih
    split
    · exact h
    · simp

theorem fileNames_ne_nil (results : List AuditRow) (h : results ≠ []) :
    fileNames results ≠ [] := by
  cases results with
  | nil => exact absurd rfl h
  | cons r rs =>
    unfold fileNames
    rw [List.foldl_cons]
    apply fileNames_foldl_ne_nil
    simp

theorem per_file_eq (results : List AuditRow) (fn : String) (fs : FileStats)
    (hmem : (fn, fs) ∈ (calculate_deviations results).per_file) :
    fn ∈ fileNames results ∧ fs = fileStats (rowsFor results fn) := by
  unfold calculate_deviations at hmem
  dsimp only at hmem
  rw [List.mem_map] at hmem
  obtain ⟨fn2, hfn2, heq⟩ := hmem
  have e1 : fn2 = fn := congrArg Prod.fst heq
  have e2 : fileStats (rowsFor results fn2) = fs := congrArg Prod.snd heq
  subst e1
  exact ⟨hfn2, e2.symm⟩

theorem foldl_add_eq_sum (l : List (String × FileStats)) (f : String × FileStats → ℚ)
    (init : ℚ) : l.foldl (fun t x => t + f x) init = init + (l.map f).sum := by
  induction l generalizing init with
  | nil => simp
  | cons a rest ih =>
    rw [List.foldl_cons, ih, List.map_cons, List.sum_cons]
    ring

theorem fileStats_most_inconsistent (results : List AuditRow) (fn : String)
    (hfn : fn ∈ fileNames results) :
    (fileStats (rowsFor results fn)).most_inconsistent_metric = firstAtMax (devList results fn) := by
  have hrows := rowsFor_ne_nil results fn hfn
  have hd : ∀ p ∈ devList results fn, 0 ≤ p.2 := by
    intro p hp
    unfold devList at hp
    rw [List.mem_map] at hp
    obtain ⟨fld, _, rfl⟩ := hp
    exact avg_deviation_of_nonneg _
  have hpair := (foldl_processField (rowsFor results fn) hrows numeric_fields initFileStats).1
  have hmim : (fileStats (rowsFor results fn)).most_inconsistent_metric
      = (numeric_fields.foldl (processField (rowsFor results fn)) initFileStats).most_inconsistent_metric := rfl
  rw [hmim]
  have h2 := congrArg Prod.snd hpair
  dsimp only at h2
  rw [h2]
  have hlist : (numeric_fields.map fun fld =>
      (fld, avg_deviation_of (metricValues (rowsFor results fn) fld))) = devList results fn := rfl
  rw [hlist]
  have h3 := maxStep_foldl_eq (devList results fn) hd
  have hinit : (initFileStats.max_deviation, initFileStats.most_inconsistent_metric)
      = ((0 : ℚ), (none : Option String)) := rfl
  rw [hinit, h3]

theorem foldl_min_mem (vs : List ℤ) (v : ℤ) : vs.foldl min v ∈ v :: vs := by
  induction vs generalizing v with
  | nil => exact List.mem_singleton_self v
  | cons a l ih =>
    rw [List.foldl_cons]
    rcases List.mem_cons.mp (ih (min v a)) with h | h
    · rw [h]
      rcases min_choice v a with hm | hm <;> rw [hm]
      · exact List.mem_cons_self _ _
      · exact List.mem_cons_of_mem _ (List.mem_cons_self _ _)
    · exact List.mem_cons_of_mem _ (List.mem_cons_of_mem _ h)

theorem foldl_max_mem (vs : List ℤ) (v : ℤ) : vs.foldl max v ∈ v :: vs := by
  induction vs generalizing v with
  | nil => exact List.mem_singleton_self v
  | cons a l ih =>
    rw [List.foldl_cons]
    rcases List.mem_cons.mp (ih (max v a)) with h | h
    · rw [h]
      rcases max_choice v a with hm | hm <;> rw [hm]
      · exact List.mem_cons_self _ _
      · exact List.mem_cons_of_mem _ (List.mem_cons_self _ _)
    · exact List.mem_cons_of_mem _ (List.mem_cons_of_mem _ h)

theorem foldl_min_le_all (vs : List ℤ) (v : ℤ) : ∀ x ∈ v :: vs, vs.foldl min v ≤ x := by
  induction vs generalizing v with
  | nil =>
    intro x hx
    rw [List.mem_singleton.mp hx]
    exact le_refl _
  | cons a l ih =>
    intro x hx
    rw [List.foldl_cons]
    rcases List.mem_cons.mp hx with h1 | hx2
    · rw [h1]
      exact le_trans (ih (min v a) (min v a) (List.mem_cons_self _ _)) (min_le_left v a)
    · rcases List.mem_cons.mp hx2 with h1 | hx3
      · rw [h1]
        exact le_trans (ih (min v a) (min v a) (List.mem_cons_self _ _)) (min_le_right v a)
      · exact ih (min v a) x (List.mem_cons_of_mem _ hx3)

theorem foldl_max_ge_all (vs : List ℤ) (v : ℤ) : ∀ x ∈ v :: vs, x ≤ vs.foldl max v := by
  induction vs generalizing v with
  | nil =>
    intro x hx
    rw [List.mem_singleton.mp hx]
    exact le_refl _
  | cons a l ih =>
    intro x hx
    rw [List.foldl_cons]
    rcases List.mem_cons.mp hx with h1 | hx2
    · rw [h1]
      exact le_trans (le_max_left v a) (ih (max v a) (max v a) (List.mem_cons_self _ _))
    · rcases List.mem_cons.mp hx2 with h1 | hx3
      · rw [h1]
        exact le_trans (le_max_right v a) (ih (max v a) (max v a) (List.mem_cons_self _ _))
      · exact ih (max v a) x (List.mem_cons_of_mem _ hx3)

/-! ### Concrete inputs used by the analyzer claims -/

/-- One audit row for file `"a"` scoring 50 on every metric. -/
def sampleRow : AuditRow := ⟨"a", fun _ => 50⟩

/-- A single-cycle collection: every metric of file `"a"` has the constant
value list `[50]`, so every deviation is 0. -/
def sampleResults : List AuditRow := [sampleRow]

/-- The per-file aggregate the analyzer computes for `sampleResults`. -/
def sampleStats : FileStats := fileStats (rowsFor sampleResults "a")

/-- One Scenario-D audit row for file `"x.py"`: `efficiency` scores `c`,
every other metric scores 0. -/
def rowD (c : ℤ) : AuditRow := ⟨"x.py", fun fld => if fld = "efficiency" then c else 0⟩

/-- Scenario D: three cycles with `efficiency` values 50, 70, 60. -/
def resultsD : List AuditRow := [rowD 50, rowD 70, rowD 60]

/-- The per-file aggregate the analyzer computes for `resultsD`. -/
def statsD : FileStats := fileStats (rowsFor resultsD "x.py")

/-- The `metric_info` the analyzer stores for `efficiency` in Scenario D. -/
def miD : MetricInfo := mkMetricInfo 50 [70, 60]

/-! ### Claim C1: selection of `most_inconsistent_metric` -/

/-- Claim C1, counterexample: on a collection where every metric of the
single file ties at deviation 0, `most_inconsistent_metric` is `None`
(the strict `>` against the zero-initialized running maximum never fires),
not the first-declared metric `readability` as the claim states. -/
theorem C1_all_zero_counterexample :
    (calculate_deviations sampleResults).per_file = [("a", sampleStats)] ∧
    (devList sampleResults "a").map Prod.snd = List.replicate numeric_fields.length 0 ∧
    sampleStats.most_inconsistent_metric = none ∧
    ¬ sampleStats.most_inconsistent_metric = some "readability" := by
  have hall : ∀ p ∈ devList sampleResults "a", p.2 = 0 := by
    intro p hp
    unfold devList at hp
    rw [List.mem_map] at hp
    obtain ⟨fld, _, rfl⟩ := hp
    apply avg_deviation_of_const _ 50
    intro x hx
    have hv : fileMetricValues sampleResults "a" fld = [50] := rfl
    rw [hv] at hx
    exact List.mem_singleton.mp hx
  have hfn : "a" ∈ fileNames sampleResults := by decide
  have hnone : sampleStats.most_inconsistent_metric = none := by
    have h1 : sampleStats.most_inconsistent_metric = firstAtMax (devList sampleResults "a") :=
      fileStats_most_inconsistent sampleResults "a" hfn
    rw [h1]
    exact firstAtMax_eq_none_of_all_zero _ hall
  have hrep : (devList sampleResults "a").map Prod.snd
      = List.replicate numeric_fields.length 0 := by
    have hlen : ((devList sampleResults "a").map Prod.snd).length = numeric_fields.length := by
      rw [List.length_map]
      unfold devList
      rw [List.length_map]
    rw [← hlen]
    rw [List.eq_replicate_length]
    intro b hb
    rw [List.mem_map] at hb
    obtain ⟨p, hp, rfl⟩ := hb
    exact hall p hp
  refine ⟨rfl, hrep, hnone, ?_⟩
  rw [hnone]
  simp

/-- Claim C1 (amended): for every collection and every file in its report,
`most_inconsistent_metric` is the first metric (in declaration order)
attaining the single largest `avg_deviation_percent` when that maximum
exceeds 0 (strict `>`, so the first metric wins ties); a metric whose
values are identical across every cycle has deviation 0 and is never
selected; and when all metrics tie at deviation 0 the field stays `None`
(no metric is selected), not the first-declared metric. -/
theorem C1_most_inconsistent_metric (results : List AuditRow) (fn : String) (fs : FileStats)
    (hmem : (fn, fs) ∈ (calculate_deviations results).per_file) :
    fs.most_inconsistent_metric = firstAtMax (devList results fn) ∧
    (∀ fld c, (∀ x ∈ fileMetricValues results fn fld, x = c) →
      avg_deviation_of (fileMetricValues results fn fld) = 0) ∧
    ((∀ p ∈ devList results fn, p.2 = 0) → fs.most_inconsistent_metric = none) := by
  obtain ⟨hfn, rfl⟩ := per_file_eq results fn fs hmem
  refine ⟨fileStats_most_inconsistent results fn hfn, ?_, ?_⟩
  · intro fld c hc
    exact avg_deviation_of_const _ c hc
  · intro hz
    rw [fileStats_most_inconsistent results fn hfn]
    exact firstAtMax_eq_none_of_all_zero _ hz

/-- Claim C1, witness: the amended theorem applied to the all-tied
single-row collection. -/
theorem C1_most_inconsistent_metric_witness :
    sampleStats.most_inconsistent_metric = firstAtMax (devList sampleResults "a") ∧
    sampleStats.most_inconsistent_metric = none := by
  have hpf : (calculate_deviations sampleResults).per_file = [("a", sampleStats)] := rfl
  have hmem : ("a", sampleStats) ∈ (calculate_deviations sampleResults).per_file := by
    rw [hpf]
    exact List.mem_singleton_self _
  have h := C1_most_inconsistent_metric sampleResults "a" sampleStats hmem
  have hall : ∀ p ∈ devList sampleResults "a", p.2 = 0 := by
    intro p hp
    unfold devList at hp
    rw [List.mem_map] at hp
    obtain ⟨fld, _, rfl⟩ := hp
    apply h.2.1 fld 50
    intro x hx
    have hv : fileMetricValues sampleResults "a" fld = [50] := rfl
    rw [hv] at hx
    exact List.mem_singleton.mp hx
  exact ⟨h.1, h.2.2 hall⟩

/-! ### Claim C2: per-file and overall average total deviation -/

/-- Claim C2: for every non-empty collection, each file's
`avg_total_deviation` is the mean of the per-metric average deviation over
all declared numeric metrics (deviation-0 metrics included), rounded to 2
decimals; and `overall.avg_total_deviation` is the mean of the per-file
`avg_total_deviation` values over all files that have at least one row
(equal weight per file), rounded to 2 decimals. -/
theorem C2_avg_total_deviation (results : List AuditRow) (hne : results ≠ []) :
    (∀ fn fs, (fn, fs) ∈ (calculate_deviations results).per_file →
      fs.avg_total_deviation
        = round2 (((devList results fn).map Prod.snd).sum / (numeric_fields.length : ℚ))) ∧
    (calculate_deviations results).overall_avg_total_deviation
      = round2 ((((calculate_deviations results).per_file.map
            fun p => p.2.avg_total_deviation).sum)
          / ((calculate_deviations results).per_file.length : ℚ)) := by
  constructor
  · intro fn fs hmem
    obtain ⟨hfn, rfl⟩ := per_file_eq results fn fs hmem
    have hrows := rowsFor_ne_nil results fn hfn
    have htot := (foldl_processField (rowsFor results fn) hrows numeric_fields initFileStats).2.1
    have h5 : (fileStats (rowsFor results fn)).avg_total_deviation
        = round2 ((numeric_fields.foldl (processField (rowsFor results fn)) initFileStats).total_deviation
            / (numeric_fields.length : ℚ)) := rfl
    rw [h5, htot]
    have hinit : initFileStats.total_deviation = 0 := rfl
    rw [hinit, zero_add]
    have hmap : (devList results fn).map Prod.snd
        = numeric_fields.map fun fld => avg_deviation_of (metricValues (rowsFor results fn) fld) := by
      unfold devList fileMetricValues
      rw [List.map_map]
      rfl
    rw [hmap]
  · unfold calculate_deviations
    dsimp only
    rw [if_pos (List.length_pos.mpr (fileNames_ne_nil results hne))]
    rw [foldl_add_eq_sum, zero_add, List.length_map]

/-- Claim C2, witness: the theorem applied to the single-row collection. -/
theorem C2_avg_total_deviation_witness :
    sampleStats.avg_total_deviation
      = round2 (((devList sampleResults "a").map Prod.snd).sum / (numeric_fields.length : ℚ)) ∧
    (calculate_deviations sampleResults).overall_avg_total_deviation
      = round2 ((((calculate_deviations sampleResults).per_file.map
            fun p => p.2.avg_total_deviation).sum)
          / ((calculate_deviations sampleResults).per_file.length : ℚ)) := by
  have h := C2_avg_total_deviation sampleResults (List.cons_ne_nil _ _)
  have hpf : (calculate_deviations sampleResults).per_file = [("a", sampleStats)] := rfl
  have hmem : ("a", sampleStats) ∈ (calculate_deviations sampleResults).per_file := by
    rw [hpf]
    exact List.mem_singleton_self _
  exact ⟨h.1 "a" sampleStats hmem, h.2⟩

/-! ### Claim C3: per-metric statistics -/

/-- Claim C3: for every file and every metric stored in its report, the
stored statistics are the arithmetic mean (rounded to 2 decimals for the
report), the minimum, maximum and their difference as the range, the raw
value list, and `avg_deviation_percent` equal (after rounding to 2
decimals) to the mean of `|v - mean| / mean * 100` over the values; for
non-negative score values this coincides with the spec formula that
defines the deviation as 0 when the mean is 0, so no division error can
occur. -/
theorem C3_per_metric_stats (results : List AuditRow) (fn : String) (fs : FileStats)
    (fld : String) (mi : MetricInfo)
    (hmem : (fn, fs) ∈ (calculate_deviations results).per_file)
    (hmi : (fld, mi) ∈ fs.metrics) :
    mi.values_per_cycle = fileMetricValues results fn fld ∧
    mi.mean = round2 (meanOf (fileMetricValues results fn fld)) ∧
    mi.min ∈ fileMetricValues results fn fld ∧
    mi.max ∈ fileMetricValues results fn fld ∧
    (∀ v ∈ fileMetricValues results fn fld, mi.min ≤ v ∧ v ≤ mi.max) ∧
    mi.range = mi.max - mi.min ∧
    mi.avg_deviation_percent = round2 (avg_deviation_of (fileMetricValues results fn fld)) ∧
    ((∀ v ∈ fileMetricValues results fn fld, 0 ≤ v) →
      mi.avg_deviation_percent = round2 (specAvgDev (fileMetricValues results fn fld))) := by
  obtain ⟨hfn, rfl⟩ := per_file_eq results fn fs hmem
  have hmetrics : (fileStats (rowsFor results fn)).metrics
      = (numeric_fields.foldl (processField (rowsFor results fn)) initFileStats).metrics := rfl
  rw [hmetrics] at hmi
  rcases mem_metrics_of_mem_foldl _ _ _ _ _ hmi with h | ⟨v, vs, hv, rfl⟩
  · exact absurd h (by simp [initFileStats])
  · have hfv : fileMetricValues results fn fld = v :: vs := hv
    rw [hfv]
    unfold mkMetricInfo
    dsimp only
    refine ⟨rfl, rfl, ?_, ?_, ?_, rfl, rfl, ?_⟩
    · exact foldl_min_mem vs v
    · exact foldl_max_mem vs v
    · intro x hx
      exact ⟨foldl_min_le_all vs v x hx, foldl_max_ge_all vs v x hx⟩
    · intro hnn
      rw [avg_deviation_of_eq_spec (v :: vs) hnn]

set_option maxRecDepth 8192 in
/-- Claim C3, witness: the theorem applied to Scenario D (`efficiency`
values 50, 70, 60), whose stored statistics evaluate to mean 60 and
`avg_deviation_percent` 11.11. -/
theorem C3_per_metric_stats_witness :
    miD.values_per_cycle = [50, 70, 60] ∧
    miD.mean = 60 ∧
    miD.avg_deviation_percent = 1111 / 100 := by
  have hpf : (calculate_deviations resultsD).per_file = [("x.py", statsD)] := rfl
  have hmem : ("x.py", statsD) ∈ (calculate_deviations resultsD).per_file := by
    rw [hpf]
    exact List.mem_singleton_self _
  have hm2 : statsD.metrics
      = (numeric_fields.foldl (processField (rowsFor resultsD "x.py")) initFileStats).metrics := rfl
  have hmi : ("efficiency", miD) ∈ statsD.metrics := by
    rw [hm2]
    exact mem_foldl_metrics_of_mem _ _ _ "efficiency" (by decide) 50 [70, 60] rfl
  have h := C3_per_metric_stats resultsD "x.py" statsD "efficiency" miD hmem hmi
  have hv : fileMetricValues resultsD "x.py" "efficiency" = [50, 70, 60] := rfl
  obtain ⟨h1, h2, -, -, -, -, h7, -⟩ := h
  rw [hv] at h1 h2 h7
  have hmean : meanOf [50, 70, 60] = 60 := by
    unfold meanOf
    norm_num
  refine ⟨h1, ?_, ?_⟩
  · rw [h2, hmean]
    unfold round2
    norm_num [round_eq]
  · have hdev : avg_deviation_of [50, 70, 60] = 100 / 9 := by
      unfold avg_deviation_of
      rw [hmean, if_pos (by norm_num : (60 : ℚ) > 0)]
      norm_num
    rw [h7, hdev]
    unfold round2
    norm_num [round_eq]

end CodeDD
